import Mathlib

/-!
Verification of the cujoai/stomp client library against its natural-language
specification.  The repository ships the public header `src/stomp.h`
(declarations and documented contracts); the frame codec, header escaping,
heartbeat negotiation, registries and run loop it promises are modelled here
from the specification's words and the header's doc comments, and the claims
are settled against that model.
-/

namespace Stomp

/-- The NUL byte: STOMP frame terminator and heartbeat no-op byte. -/
def NUL : Char := Char.ofNat 0

/-- STOMP protocol versions supported by the library (1.0, 1.1, 1.2). -/
inductive Version
  | V10
  | V11
  | V12
  deriving DecidableEq

/-- A single STOMP header: key and value, as character sequences. -/
abbrev Hdr := List Char × List Char

/-- An ordered STOMP header list (duplicate keys preserved in order). -/
abbrev Hdrs := List Hdr

/-- First-match lookup of a header value by key (the spec's convention:
lookup-by-key returns the first match). -/
def firstVal (hs : Hdrs) (k : List Char) : Option (List Char) :=
  match hs with
  | [] => none
  | (k₀, v₀) :: rest => if k₀ = k then some v₀ else firstVal rest k

/-- The `content-length` header key. -/
def clKey : List Char := "content-length".data

/-- The `destination` header key. -/
def destKey : List Char := "destination".data

/-- The `id` header key. -/
def idKey : List Char := "id".data

/-- The `transaction` header key. -/
def txKey : List Char := "transaction".data

/-- The `message-id` header key. -/
def midKey : List Char := "message-id".data

/-- The `subscription` header key. -/
def subKey : List Char := "subscription".data

/-- The `ack` header key. -/
def ackKey : List Char := "ack".data

/-- The `receipt-id` header key. -/
def rcptIdKey : List Char := "receipt-id".data

/-- Modelled from the spec: the escaping table for header values under
versions 1.1+: backslash becomes a doubled backslash, newline becomes
backslash-n, colon becomes backslash-colon; all other characters pass
through unchanged. -/
def escapeChar (c : Char) : List Char :=
  if c = '\\' then ['\\', '\\']
  else if c = '\n' then ['\\', 'n']
  else if c = ':' then ['\\', ':']
  else [c]

/-- Apply `escapeChar` across a character sequence. -/
def escAll : List Char → List Char
  | [] => []
  | c :: rest => escapeChar c ++ escAll rest

/-- Modelled from the spec: escape a header value under a given version.
Version 1.0 never escapes; versions 1.1+ apply the escaping table. -/
def escapeVal (v : Version) (s : List Char) : List Char :=
  match v with
  | .V10 => s
  | .V11 => escAll s
  | .V12 => escAll s

/-- Modelled from the spec: the reverse of the escaping table, applied on
parse under versions 1.1+.  A trailing backslash or an unknown escape
sequence is an escape-sequence violation and fails (a `ProtocolError`). -/
def unescapeVal : List Char → Option (List Char)
  | [] => some []
  | c :: rest =>
    if c = '\\' then
      match rest with
      | [] => none
      | d :: rest₂ =>
        if d = '\\' then (unescapeVal rest₂).map (fun t => '\\' :: t)
        else if d = 'n' then (unescapeVal rest₂).map (fun t => '\n' :: t)
        else if d = ':' then (unescapeVal rest₂).map (fun t => ':' :: t)
        else none
    else (unescapeVal rest).map (fun t => c :: t)

/-- Modelled from the spec: the Header List serializer renders each pair as
`key:escaped(value)` followed by a newline, in insertion order. -/
def serializeHdrs (v : Version) : Hdrs → List Char
  | [] => []
  | (k, val) :: rest => k ++ ':' :: escapeVal v val ++ '\n' :: serializeHdrs v rest

/-- Modelled from the spec: split a header line on the first colon
(version 1.0: the first colon byte; versions 1.1+: the first unescaped
colon, a backslash escaping the byte after it).  A line with no colon, or
with a trailing escape, is malformed (a `ProtocolError`). -/
def splitHdrLine (v : Version) : List Char → Option (List Char × List Char)
  | [] => none
  | c :: rest =>
    if c = ':' then some ([], rest)
    else if v ≠ Version.V10 ∧ c = '\\' then
      match rest with
      | [] => none
      | d :: rest₂ => (splitHdrLine v rest₂).map (fun p => (c :: d :: p.1, p.2))
    else (splitHdrLine v rest).map (fun p => (c :: p.1, p.2))

/-- Modelled from the spec: parse one header line into a key/value pair,
unescaping the value per version (1.0 takes the raw value). -/
def parseHdrLine (v : Version) (line : List Char) : Option Hdr :=
  match splitHdrLine v line with
  | none => none
  | some (k, raw) =>
    match v with
    | .V10 => some (k, raw)
    | _ =>
      match unescapeVal raw with
      | none => none
      | some val => some (k, val)

/-- Worker for the Header List parser: accumulates the current line in
reverse in `cur`, parsing each newline-terminated line in turn.  Trailing
characters with no final newline are malformed. -/
def parseHdrsAux (v : Version) (cur : List Char) : List Char → Option Hdrs
  | [] => if cur = [] then some [] else none
  | c :: rest =>
    if c = '\n' then
      match parseHdrLine v cur.reverse with
      | none => none
      | some hd => (parseHdrsAux v [] rest).map (fun t => hd :: t)
    else parseHdrsAux v (c :: cur) rest

/-- Modelled from the spec: the Header List parser splits the block into
newline-terminated lines, splitting each on the first unescaped colon and
unescaping values per version. -/
def parseHdrs (v : Version) (cs : List Char) : Option Hdrs :=
  parseHdrsAux v [] cs

/-- The fifteen STOMP frame commands. -/
inductive Command
  | CONNECT
  | CONNECTED
  | SEND
  | SUBSCRIBE
  | UNSUBSCRIBE
  | BEGIN
  | COMMIT
  | ABORT
  | ACK
  | NACK
  | DISCONNECT
  | MESSAGE
  | RECEIPT
  | ERROR
  | STOMP
  deriving DecidableEq

/-- The wire name of each command. -/
def commandName : Command → List Char
  | .CONNECT => "CONNECT".data
  | .CONNECTED => "CONNECTED".data
  | .SEND => "SEND".data
  | .SUBSCRIBE => "SUBSCRIBE".data
  | .UNSUBSCRIBE => "UNSUBSCRIBE".data
  | .BEGIN => "BEGIN".data
  | .COMMIT => "COMMIT".data
  | .ABORT => "ABORT".data
  | .ACK => "ACK".data
  | .NACK => "NACK".data
  | .DISCONNECT => "DISCONNECT".data
  | .MESSAGE => "MESSAGE".data
  | .RECEIPT => "RECEIPT".data
  | .ERROR => "ERROR".data
  | .STOMP => "STOMP".data

/-- Modelled from the spec: recognize a command line; an unknown command is
a `ProtocolError`. -/
def commandOfName (l : List Char) : Option Command :=
  if l = "CONNECT".data then some .CONNECT
  else if l = "CONNECTED".data then some .CONNECTED
  else if l = "SEND".data then some .SEND
  else if l = "SUBSCRIBE".data then some .SUBSCRIBE
  else if l = "UNSUBSCRIBE".data then some .UNSUBSCRIBE
  else if l = "BEGIN".data then some .BEGIN
  else if l = "COMMIT".data then some .COMMIT
  else if l = "ABORT".data then some .ABORT
  else if l = "ACK".data then some .ACK
  else if l = "NACK".data then some .NACK
  else if l = "DISCONNECT".data then some .DISCONNECT
  else if l = "MESSAGE".data then some .MESSAGE
  else if l = "RECEIPT".data then some .RECEIPT
  else if l = "ERROR".data then some .ERROR
  else if l = "STOMP".data then some .STOMP
  else none

/-- A parsed STOMP frame: command, ordered header list, body bytes. -/
structure Frame where
  command : Command
  headers : Hdrs
  body : List Char
  deriving DecidableEq

/-- Value of a decimal digit string, most significant digit first. -/
def decVal (cs : List Char) : Nat :=
  cs.foldl (fun a c => a * 10 + (c.toNat - 48)) 0

/-- Modelled from the spec: the `content-length` value must be a decimal
, non-negative integer; anything else is a `ProtocolError` (`none`). -/
def parseDecimal (cs : List Char) : Option Nat :=
  if cs ≠ [] ∧ cs.all (fun c => c.isDigit) then some (decVal cs) else none

/-- Outcome of the incremental header phase of the frame parser. -/
inductive HdrsOut
  | needMore
  | failed
  | done (hdrs : Hdrs) (clen : Option Nat) (rest : List Char)
  deriving DecidableEq

/-- Modelled from the spec: accumulate header lines until a blank line,
parsing each; the first `content-length` header parsed has its integer
value cached (a malformed value is a `ProtocolError`).  `cur` holds the
current line in reverse, `hacc` the headers so far in reverse. -/
def hdrLoop (v : Version) (cur : List Char) (hacc : Hdrs) (clen : Option Nat) :
    List Char → HdrsOut
  | [] => .needMore
  | c :: rest =>
    if c = '\n' then
      if cur = [] then .done hacc.reverse clen rest
      else
        match parseHdrLine v cur.reverse with
        | none => .failed
        | some hd =>
          if hd.1 = clKey ∧ clen = none then
            match parseDecimal hd.2 with
            | none => .failed
            | some n => hdrLoop v [] (hd :: hacc) (some n) rest
          else hdrLoop v [] (hd :: hacc) clen rest
    else hdrLoop v (c :: cur) hacc clen rest

/-- Outcome of the body phase of the frame parser. -/
inductive BodyOut
  | needMore
  | failed
  | done (body : List Char) (rest : List Char)
  deriving DecidableEq

/-- Modelled from the spec: body acquisition.  With a cached
`content-length` of `n`, require exactly `n` more bytes and then a NUL
terminator (a non-NUL byte there is a `ProtocolError`); without it,
accumulate bytes until the first NUL, which bounds the body. -/
def bodyPhase (clen : Option Nat) (cs : List Char) : BodyOut :=
  match clen with
  | some n =>
    match cs.drop n with
    | [] => .needMore
    | c :: rest => if c = NUL then .done (cs.take n) rest else .failed
  | none =>
    if cs.all (fun c => decide (c ≠ NUL)) then .needMore
    else .done (cs.takeWhile (fun c => decide (c ≠ NUL)))
              ((cs.dropWhile (fun c => decide (c ≠ NUL))).tail)

/-- Modelled from the spec: skip consecutive leading NUL bytes (heartbeat
no-op frames) and EOL bytes before a command line. -/
def skipJunk (cs : List Char) : List Char :=
  cs.dropWhile (fun c => decide (c = NUL ∨ c = '\n'))

/-- Result of one incremental `parse` call: `needMoreData` (no input
consumed), a complete frame together with the number of bytes consumed, or
a protocol error. -/
inductive ParseResult
  | needMoreData
  | ok (f : Frame) (consumed : Nat)
  | protocolError
  deriving DecidableEq

/-- Modelled from the spec: the incremental frame parser.  It consumes an
arbitrary prefix of the wire stream: skips leading NUL/EOL bytes, reads the
command line, the header lines up to a blank line (caching the first
`content-length`), then the body; any phase short on data yields
`needMoreData` and the codec itself retains no bytes. -/
def parse (v : Version) (input : List Char) : ParseResult :=
  let s := skipJunk input
  if s.all (fun c => decide (c ≠ '\n')) then .needMoreData
  else
    let cmdLine := s.takeWhile (fun c => decide (c ≠ '\n'))
    let rest₁ := (s.dropWhile (fun c => decide (c ≠ '\n'))).tail
    match commandOfName cmdLine with
    | none => .protocolError
    | some cmd =>
      match hdrLoop v [] [] none rest₁ with
      | .needMore => .needMoreData
      | .failed => .protocolError
      | .done hdrs clen rest₂ =>
        match bodyPhase clen rest₂ with
        | .needMore => .needMoreData
        | .failed => .protocolError
        | .done body rest₃ => .ok ⟨cmd, hdrs, body⟩ (input.length - rest₃.length)

/-- Modelled from the spec: the caller-side buffering discipline (the
Session's `parse_buffer`).  A `feed` appends the newly arrived chunk to the
retained buffer and runs the codec over the whole buffer; on
`needMoreData` the buffer is retained in full (no input consumed), on a
complete frame the consumed bytes are dropped. -/
def feed (v : Version) (buf chunk : List Char) : ParseResult × List Char :=
  let b := buf ++ chunk
  match parse v b with
  | .needMoreData => (.needMoreData, b)
  | .ok f n => (.ok f n, b.drop n)
  | .protocolError => (.protocolError, b)

/-- Decimal rendering of a natural number, used when the library writes a
generated number into an outgoing header value. -/
def natChars (n : Nat) : List Char :=
  (Nat.repr n).data

/-- Session lifecycle states (`Init` through `Failed`). -/
inductive SessionState
  | stInit
  | connecting
  | connected
  | disconnecting
  | closed
  | failed
  deriving DecidableEq

/-- The error kinds of the library's error model. -/
inductive Err
  | invalidArgument
  | protocolError
  | transportError
  | heartbeatTimeout
  | notConnected
  deriving DecidableEq

/-- Result of a public request operation: success with a value, or one of
the enumerated error kinds. -/
inductive OpRes (α : Type)
  | good (a : α)
  | bad (e : Err)
  deriving DecidableEq

/-- Modelled from the spec: the Session state visible to the claims —
lifecycle state, negotiated version, heartbeat intervals, the subscription
registry (client id to headers snapshot), the id generator, the set of ids
ever returned by subscribe, and the receipt id awaited by a pending
disconnect. -/
structure Session where
  state : SessionState
  version : Version
  outgoingInterval : Nat
  incomingTimeout : Nat
  subs : List (Nat × Hdrs)
  nextSubId : Nat
  issued : List Nat
  disconnectReceipt : Option (List Char)
  deriving DecidableEq

/-- Outcome of a request operation: its result, the session afterwards, and
the exact bytes written to the transport by the call. -/
structure OpOut (α : Type) where
  res : OpRes α
  session : Session
  written : List Char
  deriving DecidableEq

/-- Modelled from the spec: frame serialization — command name, newline,
the serialized header block, a blank line, the raw body bytes, one NUL. -/
def serializeFrame (v : Version) (f : Frame) : List Char :=
  commandName f.command ++ '\n' :: serializeHdrs v f.headers ++ '\n' :: f.body ++ [NUL]

/-- Modelled from the spec: auto-insert or overwrite the `content-length`
header to the exact body length when a body is supplied. -/
def setContentLength (hs : Hdrs) (n : Nat) : Hdrs :=
  if hs.any (fun h => h.1 = clKey) then
    hs.map (fun h => if h.1 = clKey then (h.1, natChars n) else h)
  else hs ++ [(clKey, natChars n)]

/-- Modelled from the spec and the `stomp_send` doc comment: requires a
`destination` header and an established connection, sets `content-length`
from the body length, and writes the serialized SEND frame. -/
def stompSend (s : Session) (hs : Hdrs) (body : List Char) : OpOut Unit :=
  if s.state ≠ .connected then ⟨.bad .notConnected, s, []⟩
  else if (firstVal hs destKey).isNone then ⟨.bad .invalidArgument, s, []⟩
  else
    ⟨.good (), s, serializeFrame s.version ⟨.SEND, setContentLength hs body.length, body⟩⟩

/-- Modelled from the spec and the `stomp_subscribe` doc comment: requires
a `destination` header; when the caller omits the `id` header the next
subscription id is assigned, injected into the outgoing headers and
returned; an absent `ack` header defaults to `auto`.  The returned client
id is recorded in the registry and in the ghost list of issued ids. -/
def stompSubscribe (s : Session) (hs : Hdrs) : OpOut Nat :=
  if s.state ≠ .connected then ⟨.bad .notConnected, s, []⟩
  else if (firstVal hs destKey).isNone then ⟨.bad .invalidArgument, s, []⟩
  else
    let outHs₀ :=
      match firstVal hs idKey with
      | some _ => hs
      | none => hs ++ [(idKey, natChars s.nextSubId)]
    let outHs :=
      match firstVal hs ackKey with
      | some _ => outHs₀
      | none => outHs₀ ++ [(ackKey, "auto".data)]
    let cid := s.nextSubId
    let s₂ := { s with
      subs := (cid, hs) :: s.subs
      nextSubId := s.nextSubId + 1
      issued := cid :: s.issued }
    ⟨.good cid, s₂, serializeFrame s.version ⟨.SUBSCRIBE, outHs, []⟩⟩

/-- Modelled from the spec and the `stomp_unsubscribe` doc comment:
requires a `destination` header; for version 1.1+ the client id must match
a tracked subscription (unmatched fails with `InvalidArgument`); the
registry entry is removed on success. -/
def stompUnsubscribe (s : Session) (cid : Nat) (hs : Hdrs) : OpOut Unit :=
  if s.state ≠ .connected then ⟨.bad .notConnected, s, []⟩
  else if (firstVal hs destKey).isNone then ⟨.bad .invalidArgument, s, []⟩
  else if s.version ≠ .V10 ∧ s.subs.all (fun p => decide (p.1 ≠ cid)) then
    ⟨.bad .invalidArgument, s, []⟩
  else
    ⟨.good (), { s with subs := s.subs.filter (fun p => decide (p.1 ≠ cid)) },
      serializeFrame s.version ⟨.UNSUBSCRIBE, hs ++ [(idKey, natChars cid)], []⟩⟩

/-- Modelled from the spec: the `transaction` header must be present with a
non-empty value for begin/commit/abort. -/
def txPresent (hs : Hdrs) : Bool :=
  match firstVal hs txKey with
  | some v => decide (v ≠ [])
  | none => false

/-- Modelled from the spec and the `stomp_begin` doc comment: requires a
non-empty `transaction` header, else fails with `InvalidArgument` before
any byte is written. -/
def stompBegin (s : Session) (hs : Hdrs) : OpOut Unit :=
  if s.state ≠ .connected then ⟨.bad .notConnected, s, []⟩
  else if ¬ txPresent hs then ⟨.bad .invalidArgument, s, []⟩
  else ⟨.good (), s, serializeFrame s.version ⟨.BEGIN, hs, []⟩⟩

/-- Modelled from the spec and the `stomp_commit` doc comment: requires a
non-empty `transaction` header, else fails with `InvalidArgument` before
any byte is written. -/
def stompCommit (s : Session) (hs : Hdrs) : OpOut Unit :=
  if s.state ≠ .connected then ⟨.bad .notConnected, s, []⟩
  else if ¬ txPresent hs then ⟨.bad .invalidArgument, s, []⟩
  else ⟨.good (), s, serializeFrame s.version ⟨.COMMIT, hs, []⟩⟩

/-- Modelled from the spec and the `stomp_abort` doc comment: requires a
non-empty `transaction` header, else fails with `InvalidArgument` before
any byte is written. -/
def stompAbort (s : Session) (hs : Hdrs) : OpOut Unit :=
  if s.state ≠ .connected then ⟨.bad .notConnected, s, []⟩
  else if ¬ txPresent hs then ⟨.bad .invalidArgument, s, []⟩
  else ⟨.good (), s, serializeFrame s.version ⟨.ABORT, hs, []⟩⟩

/-- Modelled from the `stomp_ack` doc comment: the headers mandated per
negotiated version — 1.0: `message-id`; 1.1: `message-id` and
`subscription`; 1.2: `id`. -/
def ackHdrsOk (v : Version) (hs : Hdrs) : Bool :=
  match v with
  | .V10 => (firstVal hs midKey).isSome
  | .V11 => (firstVal hs midKey).isSome && (firstVal hs subKey).isSome
  | .V12 => (firstVal hs idKey).isSome

/-- Modelled from the spec and the `stomp_ack` doc comment: checks the
version-mandated headers before writing the ACK frame. -/
def stompAck (s : Session) (hs : Hdrs) : OpOut Unit :=
  if s.state ≠ .connected then ⟨.bad .notConnected, s, []⟩
  else if ¬ ackHdrsOk s.version hs then ⟨.bad .invalidArgument, s, []⟩
  else ⟨.good (), s, serializeFrame s.version ⟨.ACK, hs, []⟩⟩

/-- Modelled from the spec and the `stomp_nack` doc comment: NACK is
disallowed for an established STOMP 1.0 connection; under 1.1+ the same
version-mandated headers as ACK are checked before writing. -/
def stompNack (s : Session) (hs : Hdrs) : OpOut Unit :=
  if s.state ≠ .connected then ⟨.bad .notConnected, s, []⟩
  else if s.version = .V10 then ⟨.bad .invalidArgument, s, []⟩
  else if ¬ ackHdrsOk s.version hs then ⟨.bad .invalidArgument, s, []⟩
  else ⟨.good (), s, serializeFrame s.version ⟨.NACK, hs, []⟩⟩

/-- Modelled from the spec: heartbeat negotiation.  `none` models a side
that omitted the `heart-beat` header entirely (treated as `0,0`).  The
first component is the effective outgoing interval, the second the
effective incoming timeout. -/
def negotiateHB (client server : Option (Nat × Nat)) : Nat × Nat :=
  let c := client.getD (0, 0)
  let s := server.getD (0, 0)
  (if c.1 = 0 ∨ s.2 = 0 then 0 else max c.1 s.2,
   if c.2 = 0 ∨ s.1 = 0 then 0 else max c.2 s.1)

/-- Events reported to the application by the run loop (callback kinds). -/
inductive EventOut
  | connectedCb
  | errorCb
  | messageCb
  | receiptCb
  | userCb
  deriving DecidableEq

/-- Inbound stimuli the run loop reacts to: a parsed frame, an
unrecoverable codec failure, transport EOF, the incoming-heartbeat
deadline elapsing with no inbound byte, or the user-callback timer. -/
inductive LoopEvent
  | frameIn (f : Frame)
  | parseFailed
  | transportEof
  | heartbeatDeadline
  | userDeadline
  deriving DecidableEq

/-- The reasons the run loop terminates. -/
inductive TermReason
  | eofReached
  | disconnectComplete
  | parseFailure
  | heartbeatTimeout
  deriving DecidableEq

/-- One run-loop step: continue with an updated session, or stop. Either
way the events dispatched during the step are listed in order. -/
inductive StepOut
  | next (s : Session) (ev : List EventOut)
  | stop (r : TermReason) (ev : List EventOut)
  deriving DecidableEq

/-- Modelled from the spec: one iteration of the run loop.  Transport EOF
and unrecoverable parse failures stop the loop; an elapsed incoming
heartbeat deadline stops it with `HeartbeatTimeout` reported as an
Error-equivalent event; an inbound ERROR frame dispatches the Error
callback and moves the session to Failed but does not by itself stop the
loop; a RECEIPT matching a pending disconnect completes disconnection;
other frames dispatch their callbacks and the loop continues. -/
def runStep (s : Session) (e : LoopEvent) : StepOut :=
  match e with
  | .transportEof => .stop .eofReached []
  | .parseFailed => .stop .parseFailure []
  | .heartbeatDeadline =>
    if s.incomingTimeout ≠ 0 then .stop .heartbeatTimeout [.errorCb]
    else .next s []
  | .userDeadline => .next s [.userCb]
  | .frameIn f =>
    match f.command with
    | .ERROR => .next { s with state := .failed } [.errorCb]
    | .MESSAGE => .next s [.messageCb]
    | .CONNECTED => .next { s with state := .connected } [.connectedCb]
    | .RECEIPT =>
      if s.state = .disconnecting ∧ s.disconnectReceipt ≠ none ∧
          firstVal f.headers rcptIdKey = s.disconnectReceipt then
        .stop .disconnectComplete [.receiptCb]
      else .next s [.receiptCb]
    | _ => .next s [.errorCb]

/-- The session invariant for subscription-id bookkeeping: every id ever
returned and every id in the registry is below the generator counter. -/
def SessionInv (s : Session) : Prop :=
  (∀ i ∈ s.issued, i < s.nextSubId) ∧ (∀ p ∈ s.subs, p.1 < s.nextSubId)

/-- A header key that serializes and parses cleanly: it contains no colon
or newline, and no backslash under 1.1+ (under 1.0 a backslash in a key is
harmless since 1.0 neither escapes nor unescapes). -/
def keyClean (v : Version) (k : List Char) : Prop :=
  ':' ∉ k ∧ '\n' ∉ k ∧ (v = .V10 ∨ '\\' ∉ k)

/-- Modelled from the spec: a value is escapable under 1.1+ always (the
escaping table covers backslash, newline and colon), and under 1.0 —
which never escapes — only when it needs no escaping at all. -/
def valEscapable (v : Version) (val : List Char) : Prop :=
  match v with
  | .V10 => '\\' ∉ val ∧ '\n' ∉ val ∧ ':' ∉ val
  | _ => True

/-- Relation maintained by the header phase between the headers collected
so far and the cached `content-length`: the cache holds exactly the parsed
value of the first `content-length` header when one is present, and is
empty otherwise. -/
def ClenRel (hdrs : Hdrs) (clen : Option Nat) : Prop :=
  match firstVal hdrs clKey with
  | some val => ∃ m, parseDecimal val = some m ∧ clen = some m
  | none => clen = none

/-- A concrete connected 1.2 session used by witnesses. -/
def demoSession : Session :=
  ⟨.connected, .V12, 0, 0, [], 0, [], none⟩

/-- A concrete connected 1.0 session used by witnesses. -/
def demoSessionV10 : Session :=
  ⟨.connected, .V10, 0, 0, [], 0, [], none⟩

/-- A concrete connected 1.2 session with a 5-second incoming heartbeat
timeout, used by witnesses. -/
def demoSessionHB : Session :=
  ⟨.connected, .V12, 0, 5000, [], 0, [], none⟩

/-- A concrete header list holding one destination, used by witnesses. -/
def dhs : Hdrs := [(destKey, "/queue/a".data)]

/-- A concrete serialized MESSAGE frame used by the fragmentation witness. -/
def demoWire : List Char :=
  "MESSAGE\ndestination:/queue/a\n\nhi".data ++ [NUL]

/-- C4: for every client pair (cx, cy) and server pair (sx, sy), the
effective outgoing interval is 0 when cx = 0 or sy = 0 and max cx sy
otherwise; the effective incoming timeout is 0 when cy = 0 or sx = 0 and
max cy sx otherwise; a side that omits the `heart-beat` header entirely is
treated as having sent 0,0. -/
theorem c4_heartbeat_negotiation :
    (∀ cx cy sx sy : Nat,
      (negotiateHB (some (cx, cy)) (some (sx, sy))).1 =
        (if cx = 0 ∨ sy = 0 then 0 else max cx sy) ∧
      (negotiateHB (some (cx, cy)) (some (sx, sy))).2 =
        (if cy = 0 ∨ sx = 0 then 0 else max cy sx)) ∧
    (∀ sv, negotiateHB none sv = negotiateHB (some (0, 0)) sv) ∧
    (∀ cl, negotiateHB cl none = negotiateHB cl (some (0, 0))) :=
  ⟨fun _ _ _ _ => ⟨rfl, rfl⟩, fun _ => rfl, fun _ => rfl⟩

/-- C7: in a connected session, begin/commit/abort with a `transaction`
header whose value is the empty string fail with `InvalidArgument`, write
no byte to the transport, and leave the session unchanged. -/
theorem c7_empty_transaction (s : Session) (hs : Hdrs)
    (hst : s.state = .connected) (h : firstVal hs txKey = some []) :
    stompBegin s hs = ⟨.bad .invalidArgument, s, []⟩ ∧
    stompCommit s hs = ⟨.bad .invalidArgument, s, []⟩ ∧
    stompAbort s hs = ⟨.bad .invalidArgument, s, []⟩ := by
  have htx : txPresent hs = false := by simp [txPresent, h]
  refine ⟨?_, ?_, ?_⟩ <;> simp [stompBegin, stompCommit, stompAbort, hst, htx]

/-- Witness for C7 at a concrete session and header list. -/
theorem c7_empty_transaction_witness :
    stompBegin demoSession [(txKey, [])] = ⟨.bad .invalidArgument, demoSession, []⟩ ∧
    stompCommit demoSession [(txKey, [])] = ⟨.bad .invalidArgument, demoSession, []⟩ ∧
    stompAbort demoSession [(txKey, [])] = ⟨.bad .invalidArgument, demoSession, []⟩ :=
  c7_empty_transaction demoSession [(txKey, [])] rfl (by decide)

/-- C9: for every session whose negotiated version is 1.0, `stomp_nack`
fails with an error and writes nothing to the transport. -/
theorem c9_nack_v10 (s : Session) (hs : Hdrs) (h : s.version = .V10) :
    (stompNack s hs).written = [] ∧ ∃ e, (stompNack s hs).res = .bad e := by
  by_cases hst : s.state = .connected
  · refine ⟨?_, .invalidArgument, ?_⟩ <;> simp [stompNack, hst, h]
  · refine ⟨?_, .notConnected, ?_⟩ <;> simp [stompNack, hst]

/-- Witness for C9 at a concrete 1.0 session. -/
theorem c9_nack_v10_witness :
    (stompNack demoSessionV10 []).written = [] ∧
    ∃ e, (stompNack demoSessionV10 []).res = .bad e :=
  c9_nack_v10 demoSessionV10 [] rfl

/-- C10: in a connected session, `stomp_ack` fails with `InvalidArgument`
before any write unless the version-mandated headers are present
(1.0: `message-id`; 1.1: `message-id` and `subscription`; 1.2: `id`), and
`stomp_nack` imposes the same requirements under 1.1 and 1.2. -/
theorem c10_ack_mandated_headers (s : Session) (hs : Hdrs)
    (hst : s.state = .connected) :
    (¬ ackHdrsOk s.version hs = true →
      stompAck s hs = ⟨.bad .invalidArgument, s, []⟩) ∧
    (s.version ≠ .V10 → ¬ ackHdrsOk s.version hs = true →
      stompNack s hs = ⟨.bad .invalidArgument, s, []⟩) ∧
    (ackHdrsOk .V10 hs = (firstVal hs midKey).isSome) ∧
    (ackHdrsOk .V11 hs = ((firstVal hs midKey).isSome && (firstVal hs subKey).isSome)) ∧
    (ackHdrsOk .V12 hs = (firstVal hs idKey).isSome) := by
  refine ⟨fun h => ?_, fun hv h => ?_, rfl, rfl, rfl⟩
  · simp [stompAck, hst, h]
  · simp [stompNack, hst, hv, h]

/-- Witness for C10 at a concrete 1.2 session with no `id` header. -/
theorem c10_ack_mandated_headers_witness :
    stompAck demoSession [] = ⟨.bad .invalidArgument, demoSession, []⟩ ∧
    stompNack demoSession [] = ⟨.bad .invalidArgument, demoSession, []⟩ :=
  ⟨(c10_ack_mandated_headers demoSession [] rfl).1 (by decide),
   (c10_ack_mandated_headers demoSession [] rfl).2.1 (by decide) (by decide)⟩

/-- C8: the run-loop step stops only on transport EOF, completion of a
requested disconnect, an unrecoverable parse failure, or a heartbeat
timeout; with a positive incoming timeout an elapsed heartbeat deadline
always stops the loop with `HeartbeatTimeout` reported through the Error
callback; an inbound ERROR frame by itself does not stop the loop. -/
theorem c8_run_termination (s : Session) :
    (∀ e r ev, runStep s e = .stop r ev →
      (e = .transportEof ∧ r = .eofReached) ∨
      (e = .parseFailed ∧ r = .parseFailure) ∨
      (e = .heartbeatDeadline ∧ r = .heartbeatTimeout ∧ s.incomingTimeout ≠ 0) ∨
      (r = .disconnectComplete ∧ s.state = .disconnecting)) ∧
    (s.incomingTimeout ≠ 0 →
      runStep s .heartbeatDeadline = .stop .heartbeatTimeout [.errorCb]) ∧
    (∀ f, f.command = .ERROR →
      runStep s (.frameIn f) = .next { s with state := .failed } [.errorCb]) := by
  refine ⟨fun e r ev h => ?_, fun h => by simp [runStep, h], fun f hf => by simp [runStep, hf]⟩
  cases e with
  | transportEof => simp [runStep] at h; exact Or.inl ⟨rfl, h.1.symm⟩
  | parseFailed => simp [runStep] at h; exact Or.inr (Or.inl ⟨rfl, h.1.symm⟩)
  | heartbeatDeadline =>
    by_cases ht : s.incomingTimeout = 0
    · simp [runStep, ht] at h
    · simp [runStep, ht] at h
      exact Or.inr (Or.inr (Or.inl ⟨rfl, h.1.symm, ht⟩))
  | userDeadline => simp [runStep] at h
  | frameIn f =>
    obtain ⟨cmd, hdrs, body⟩ := f
    cases cmd <;> simp [runStep] at h
    split at h
    · rename_i hc
      refine Or.inr (Or.inr (Or.inr ⟨?_, hc.1⟩))
      cases h; rfl
    · cases h

/-- Witness for C8 at a concrete session with a 5000 ms incoming timeout
and a concrete ERROR frame. -/
theorem c8_run_termination_witness :
    runStep demoSessionHB .heartbeatDeadline = .stop .heartbeatTimeout [.errorCb] ∧
    runStep demoSessionHB (.frameIn ⟨.ERROR, [], []⟩) =
      .next { demoSessionHB with state := .failed } [.errorCb] :=
  ⟨(c8_run_termination demoSessionHB).2.1 (by decide),
   (c8_run_termination demoSessionHB).2.2 ⟨.ERROR, [], []⟩ rfl⟩

/-- C1: the codec retains no bytes, so feeding any prefix of a wire
sequence (when it yields `NeedMoreData`) and then the whole accumulated
input in a second call yields exactly the single-call result, and any
`feed` that returns `NeedMoreData` consumes no input (the caller's buffer
keeps every byte). -/
theorem c1_fragmentation_invariance (v : Version) (s : List Char) (i : Nat) :
    ((feed v [] (List.take i s)).1 = .needMoreData →
      (feed v [] (List.take i s)).2 = List.take i s ∧
      (feed v (List.take i s) (List.drop i s)).1 = parse v s ∧
      (feed v [] s).1 = parse v s) ∧
    (∀ buf chunk, (feed v buf chunk).1 = .needMoreData →
      (feed v buf chunk).2 = buf ++ chunk) := by
  constructor
  · intro h
    refine ⟨?_, ?_, ?_⟩
    · simp only [feed, List.nil_append] at h ⊢
      cases hp : parse v (List.take i s) <;> simp [hp] at h ⊢
    · simp only [feed, List.take_append_drop]
      cases hp : parse v s <;> simp [hp]
    · simp only [feed, List.nil_append]
      cases hp : parse v s <;> simp [hp]
  · intro buf chunk h
    simp only [feed] at h ⊢
    cases hp : parse v (buf ++ chunk) <;> simp [hp] at h ⊢

/-- Witness for C1: a concrete MESSAGE frame split after three bytes; the
prefix yields `NeedMoreData` and the resumed call equals the whole-input
parse. -/
theorem c1_fragmentation_invariance_witness :
    (feed .V12 [] (List.take 3 demoWire)).1 = .needMoreData ∧
    (feed .V12 (List.take 3 demoWire) (List.drop 3 demoWire)).1 = parse .V12 demoWire := by
  have h := (c1_fragmentation_invariance .V12 demoWire 3).1 (by decide)
  exact ⟨by decide, h.2.1⟩

/-- C3: in a connected 1.2 session, `stomp_send` with destination
`/queue/x`, content type `text/plain` and body `hi` writes exactly the
claimed wire bytes; in general the written bytes are the command, the
caller headers in insertion order with `content-length` set to the exact
body length, a blank line, the raw body, and one NUL terminator. -/
theorem c3_send_serialization :
    (stompSend demoSession
        [(destKey, "/queue/x".data), ("content-type".data, "text/plain".data)]
        "hi".data =
      ⟨.good (), demoSession,
        "SEND\ndestination:/queue/x\ncontent-type:text/plain\ncontent-length:2\n\nhi".data
          ++ [NUL]⟩) ∧
    (∀ (s : Session) (hs : Hdrs) (body : List Char),
      s.state = .connected → (firstVal hs destKey).isSome = true →
      (∀ p ∈ hs, p.1 ≠ clKey) →
      stompSend s hs body =
        ⟨.good (), s,
          commandName .SEND ++ '\n' ::
            serializeHdrs s.version (hs ++ [(clKey, natChars body.length)]) ++
            '\n' :: body ++ [NUL]⟩) := by
  constructor
  · decide
  · intro s hs body hst hdest hnocl
    have hno : hs.any (fun h => decide (h.1 = clKey)) = false := by
      simp only [List.any_eq_false, decide_eq_true_eq]
      exact hnocl
    have hnone : (firstVal hs destKey).isNone = false := by
      cases hd : firstVal hs destKey
      · rw [hd] at hdest; simp at hdest
      · rfl
    simp [stompSend, hst, hnone, serializeFrame, setContentLength, hno]

/-- Witness for C3's general clause at a concrete session and headers. -/
theorem c3_send_serialization_witness :
    stompSend demoSession dhs "hi".data =
      ⟨.good (), demoSession,
        commandName .SEND ++ '\n' ::
          serializeHdrs demoSession.version (dhs ++ [(clKey, natChars 2)]) ++
          '\n' :: "hi".data ++ [NUL]⟩ :=
  c3_send_serialization.2 demoSession dhs "hi".data rfl (by decide) (by decide)

/-- C5: in a connected session under 1.1+, subscribing with a destination
and no `id` header returns a fresh id never returned before (under the
id-generator invariant), preserves the invariant, records the entry;
unsubscribing that id with a destination succeeds and removes the entry,
and a second unsubscribe of the same id fails with `InvalidArgument`. -/
theorem c5_subscribe_unsubscribe (s : Session) (hs hs₂ hs₃ : Hdrs)
    (hinv : SessionInv s) (hst : s.state = .connected) (hver : s.version ≠ .V10)
    (hdest : (firstVal hs destKey).isSome = true)
    (hdest₂ : (firstVal hs₂ destKey).isSome = true)
    (hdest₃ : (firstVal hs₃ destKey).isSome = true) :
    (stompSubscribe s hs).res = .good s.nextSubId ∧
    s.nextSubId ∉ s.issued ∧
    SessionInv (stompSubscribe s hs).session ∧
    (stompSubscribe s hs).session.issued = s.nextSubId :: s.issued ∧
    (s.nextSubId, hs) ∈ (stompSubscribe s hs).session.subs ∧
    (stompUnsubscribe (stompSubscribe s hs).session s.nextSubId hs₂).res = .good () ∧
    (∀ p ∈ (stompUnsubscribe (stompSubscribe s hs).session s.nextSubId hs₂).session.subs,
      p.1 ≠ s.nextSubId) ∧
    (stompUnsubscribe
        (stompUnsubscribe (stompSubscribe s hs).session s.nextSubId hs₂).session
        s.nextSubId hs₃).res = .bad .invalidArgument := by
  have hnone : (firstVal hs destKey).isNone = false := by
    cases hd : firstVal hs destKey
    · rw [hd] at hdest; simp at hdest
    · rfl
  have hnone₂ : (firstVal hs₂ destKey).isNone = false := by
    cases hd : firstVal hs₂ destKey
    · rw [hd] at hdest₂; simp at hdest₂
    · rfl
  have hnone₃ : (firstVal hs₃ destKey).isNone = false := by
    cases hd : firstVal hs₃ destKey
    · rw [hd] at hdest₃; simp at hdest₃
    · rfl
  have hsub : stompSubscribe s hs =
      ⟨.good s.nextSubId,
        { s with subs := (s.nextSubId, hs) :: s.subs,
                 nextSubId := s.nextSubId + 1,
                 issued := s.nextSubId :: s.issued },
        serializeFrame s.version
          ⟨.SUBSCRIBE,
            (match firstVal hs ackKey with
             | some _ =>
               match firstVal hs idKey with
               | some _ => hs
               | none => hs ++ [(idKey, natChars s.nextSubId)]
             | none =>
               (match firstVal hs idKey with
                | some _ => hs
                | none => hs ++ [(idKey, natChars s.nextSubId)]) ++ [(ackKey, "auto".data)]),
            []⟩⟩ := by
    simp [stompSubscribe, hst, hnone]
  have hfresh : s.nextSubId ∉ s.issued := by
    intro hmem
    exact absurd (hinv.1 s.nextSubId hmem) (lt_irrefl _)
  have hinv₂ : SessionInv { s with subs := (s.nextSubId, hs) :: s.subs,
                                   nextSubId := s.nextSubId + 1,
                                   issued := s.nextSubId :: s.issued } := by
    constructor
    · intro i hi
      simp only [List.mem_cons] at hi
      rcases hi with h | h
      · simp [h]
      · have := hinv.1 i h; simp; omega
    · intro p hp
      simp only [List.mem_cons] at hp
      rcases hp with h | h
      · simp [h]
      · have := hinv.2 p h; simp; omega
  have hnotall :
      (((s.nextSubId, hs) :: s.subs).all (fun p => decide (p.1 ≠ s.nextSubId))) = false := by
    simp [List.all_cons]
  have huns : stompUnsubscribe
      { s with subs := (s.nextSubId, hs) :: s.subs,
               nextSubId := s.nextSubId + 1,
               issued := s.nextSubId :: s.issued } s.nextSubId hs₂ =
      ⟨.good (),
        { s with subs := ((s.nextSubId, hs) :: s.subs).filter
                            (fun p => decide (p.1 ≠ s.nextSubId)),
                 nextSubId := s.nextSubId + 1,
                 issued := s.nextSubId :: s.issued },
        serializeFrame s.version
          ⟨.UNSUBSCRIBE, hs₂ ++ [(idKey, natChars s.nextSubId)], []⟩⟩ := by
    simp [stompUnsubscribe, hst, hnone₂, hnotall]
  have hout : ∀ p ∈ ((s.nextSubId, hs) :: s.subs).filter
      (fun p => decide (p.1 ≠ s.nextSubId)), p.1 ≠ s.nextSubId := by
    intro p hp
    have := List.of_mem_filter hp
    simpa using this
  have hall₃ : ((((s.nextSubId, hs) :: s.subs).filter
      (fun p => decide (p.1 ≠ s.nextSubId))).all
      (fun p => decide (p.1 ≠ s.nextSubId))) = true := by
    rw [List.all_eq_true]
    intro p hp
    simpa using hout p hp
  have huns₃ : (stompUnsubscribe
      { s with subs := ((s.nextSubId, hs) :: s.subs).filter
                          (fun p => decide (p.1 ≠ s.nextSubId)),
               nextSubId := s.nextSubId + 1,
               issued := s.nextSubId :: s.issued } s.nextSubId hs₃).res =
      .bad .invalidArgument := by
    simp [stompUnsubscribe, hst, hnone₃, hall₃, hver]
  refine ⟨by rw [hsub], hfresh, by rw [hsub]; exact hinv₂, by rw [hsub],
    by rw [hsub]; exact List.mem_cons_self _ _, by rw [hsub]; rw [huns],
    ?_, ?_⟩
  · rw [hsub, huns]
    exact hout
  · rw [hsub, huns]
    exact huns₃

/-- Witness for C5 at a concrete fresh 1.2 session. -/
theorem c5_subscribe_unsubscribe_witness :
    (stompSubscribe demoSession dhs).res = .good 0 ∧
    (stompUnsubscribe (stompSubscribe demoSession dhs).session 0 dhs).res = .good () ∧
    (stompUnsubscribe
        (stompUnsubscribe (stompSubscribe demoSession dhs).session 0 dhs).session
        0 dhs).res = .bad .invalidArgument := by
  have h := c5_subscribe_unsubscribe demoSession dhs dhs dhs
    (by constructor <;> intro x hx <;> simp [demoSession] at hx)
    rfl (by decide) (by decide) (by decide) (by decide)
  exact ⟨h.1, h.2.2.2.2.2.1, h.2.2.2.2.2.2.2⟩

theorem unescape_escAll (val : List Char) : unescapeVal (escAll val) = some val := by
  induction val with
  | nil => rfl
  | cons c t ih =>
    by_cases h1 : c = '\\'
    · subst h1; simp [escAll, escapeChar, unescapeVal, ih]
    · by_cases h2 : c = '\n'
      · subst h2; simp [escAll, escapeChar, unescapeVal, ih]
      · by_cases h3 : c = ':'
        · subst h3; simp [escAll, escapeChar, unescapeVal, ih]
        · show unescapeVal (escapeChar c ++ escAll t) = _
          rw [escapeChar, if_neg h1, if_neg h2, if_neg h3]
          rw [List.singleton_append, unescapeVal.eq_def]
          cases he : escAll t with
          | nil => simp [h1, he ▸ ih]
          | cons d t₂ => simp [h1, he ▸ ih]

theorem newline_not_mem_escAll (val : List Char) : '\n' ∉ escAll val := by
  induction val with
  | nil => simp [escAll]
  | cons c t ih =>
    simp only [escAll, List.mem_append]
    rintro (h | h)
    · revert h
      unfold escapeChar
      split
      · decide
      · split
        · decide
        · split
          · decide
          · rename_i h1 h2 h3
            simp only [List.mem_singleton]
            intro h; exact h2 h.symm
    · exact ih h

theorem escapeVal_no_newline (v : Version) (val : List Char) (h : valEscapable v val) :
    '\n' ∉ escapeVal v val := by
  cases v with
  | V10 => exact h.2.1
  | V11 => exact newline_not_mem_escAll val
  | V12 => exact newline_not_mem_escAll val

theorem splitHdrLine_append (v : Version) (k raw : List Char)
    (hk : ':' ∉ k) (hk2 : v = .V10 ∨ '\\' ∉ k) :
    splitHdrLine v (k ++ ':' :: raw) = some (k, raw) := by
  induction k with
  | nil =>
    rw [List.nil_append, splitHdrLine.eq_def]
    simp
  | cons c t ih =>
    have hc : ¬ c = ':' := fun h => hk (h ▸ List.mem_cons_self c t)
    have hcc : ¬ (v ≠ Version.V10 ∧ c = '\\') := by
      rcases hk2 with h | h
      · intro hx; exact hx.1 h
      · intro hx; exact h (hx.2 ▸ List.mem_cons_self c t)
    have ht : ':' ∉ t := fun h => hk (List.mem_cons_of_mem c h)
    have ht2 : v = Version.V10 ∨ '\\' ∉ t := by
      rcases hk2 with h | h
      · exact Or.inl h
      · exact Or.inr fun hx => h (List.mem_cons_of_mem c hx)
    rw [List.cons_append, splitHdrLine.eq_def]
    simp only [hc, hcc, if_false, ite_false]
    rw [ih ht ht2]
    simp [hc, hcc]

theorem parseHdrLine_mk (v : Version) (k val : List Char)
    (hk : ':' ∉ k) (hk2 : v = .V10 ∨ '\\' ∉ k) :
    parseHdrLine v (k ++ ':' :: escapeVal v val) = some (k, val) := by
  cases v with
  | V10 => simp [parseHdrLine, splitHdrLine_append _ _ _ hk hk2, escapeVal]
  | V11 => simp [parseHdrLine, splitHdrLine_append _ _ _ hk hk2, escapeVal, unescape_escAll]
  | V12 => simp [parseHdrLine, splitHdrLine_append _ _ _ hk hk2, escapeVal, unescape_escAll]

theorem parseHdrsAux_line (v : Version) (l : List Char) (rest : List Char)
    (cur : List Char) (hl : '\n' ∉ l) :
    parseHdrsAux v cur (l ++ '\n' :: rest) =
      match parseHdrLine v (cur.reverse ++ l) with
      | none => none
      | some hd => (parseHdrsAux v [] rest).map (fun t => hd :: t) := by
  induction l generalizing cur with
  | nil => simp [parseHdrsAux]
  | cons c t ih =>
    have hc : ¬ c = '\n' := fun h => hl (h ▸ List.mem_cons_self c t)
    have ht : '\n' ∉ t := fun h => hl (List.mem_cons_of_mem c h)
    rw [List.cons_append]
    show parseHdrsAux v cur (c :: (t ++ '\n' :: rest)) = _
    rw [parseHdrsAux, if_neg hc, ih (c :: cur) ht]
    simp [List.append_assoc]

/-- C2 counterexample: a header whose key is a bare colon has escapable
values under 1.2, yet the round trip does not return it. -/
theorem c2_roundtrip_counterexample :
    (∀ p ∈ ([ (":".data, ([] : List Char)) ] : Hdrs), valEscapable .V12 p.2) ∧
    parseHdrs .V12 (serializeHdrs .V12 [ (":".data, []) ]) ≠
      some [ (":".data, []) ] := by
  constructor
  · intro p hp
    simp only [List.mem_singleton] at hp
    subst hp
    trivial
  · decide

/-- C2 (amended): for every header list H whose keys are clean (no colon
or newline, and no backslash under 1.1+) and whose values are escapable
under version V, parsing the serialization under V returns exactly H,
order and content preserved. -/
theorem c2_roundtrip_amended (v : Version) (H : Hdrs)
    (h : ∀ p ∈ H, keyClean v p.1 ∧ valEscapable v p.2) :
    parseHdrs v (serializeHdrs v H) = some H := by
  induction H with
  | nil => rfl
  | cons p t ih =>
    obtain ⟨⟨hk1, hk2, hk3⟩, hv⟩ := h p (List.mem_cons_self p t)
    have hl : '\n' ∉ (p.1 ++ ':' :: escapeVal v p.2) := by
      simp only [List.mem_append, List.mem_cons]
      rintro (h | h | h)
      · exact hk2 h
      · exact absurd h.symm (by decide)
      · exact escapeVal_no_newline v p.2 hv h
    have hser : serializeHdrs v (p :: t) =
        (p.1 ++ ':' :: escapeVal v p.2) ++ '\n' :: serializeHdrs v t := by
      cases p
      simp [serializeHdrs, List.append_assoc]
    unfold parseHdrs
    rw [hser, parseHdrsAux_line v _ _ [] hl]
    simp only [List.reverse_nil, List.nil_append]
    rw [parseHdrLine_mk v p.1 p.2 hk1 hk3]
    have iht := ih (fun q hq => h q (List.mem_cons_of_mem p hq))
    unfold parseHdrs at iht
    cases p
    simp [iht]

/-- Witness for the amended C2 at a concrete header list under 1.1. -/
theorem c2_roundtrip_amended_witness :
    parseHdrs .V11 (serializeHdrs .V11
      [("destination".data, "/queue/a:b\nc\\d".data), ("x".data, "y".data)]) =
    some [("destination".data, "/queue/a:b\nc\\d".data), ("x".data, "y".data)] :=
  c2_roundtrip_amended .V11 _ (by
    intro p hp
    simp only [List.mem_cons, List.mem_singleton] at hp
    rcases hp with h | h | h
    · subst h; exact ⟨⟨by decide, by decide, Or.inr (by decide)⟩, trivial⟩
    · subst h; exact ⟨⟨by decide, by decide, Or.inr (by decide)⟩, trivial⟩
    · cases h)

theorem takeWhile_append_stop (p : Char → Bool) (l r : List Char) (x : Char)
    (hx : p x = false) (h : ∀ c ∈ l, p c = true) :
    (l ++ x :: r).takeWhile p = l ∧ (l ++ x :: r).dropWhile p = x :: r := by
  induction l with
  | nil => simp [List.takeWhile_cons, List.dropWhile_cons, hx]
  | cons c t ih =>
    have hc := h c (List.mem_cons_self c t)
    have iht := ih (fun d hd => h d (List.mem_cons_of_mem c hd))
    simp [List.takeWhile_cons, List.dropWhile_cons, hc, iht.1, iht.2]

theorem skipJunk_cons (c : Char) (r : List Char)
    (h : ¬ (c = NUL ∨ c = '\n')) :
    skipJunk (c :: r) = c :: r := by
  simp [skipJunk, List.dropWhile_cons, h]

theorem commandName_ne_nil (cmd : Command) : commandName cmd ≠ [] := by
  cases cmd <;> decide

theorem commandName_no_newline (cmd : Command) : '\n' ∉ commandName cmd := by
  cases cmd <;> decide

theorem commandName_no_junk (cmd : Command) :
    ∀ c ∈ commandName cmd, ¬ (c = NUL ∨ c = '\n') := by
  cases cmd <;> decide

theorem commandOfName_name (cmd : Command) :
    commandOfName (commandName cmd) = some cmd := by
  cases cmd <;> decide

theorem parse_shape (v : Version) (cmd : Command) (tail : List Char) :
    parse v (commandName cmd ++ '\n' :: tail) =
      match hdrLoop v [] [] none tail with
      | .needMore => .needMoreData
      | .failed => .protocolError
      | .done hdrs clen rest₂ =>
        match bodyPhase clen rest₂ with
        | .needMore => .needMoreData
        | .failed => .protocolError
        | .done body rest₃ =>
          .ok ⟨cmd, hdrs, body⟩
            ((commandName cmd ++ '\n' :: tail).length - rest₃.length) := by
  have hskip : skipJunk (commandName cmd ++ '\n' :: tail) = commandName cmd ++ '\n' :: tail := by
    cases hn : commandName cmd with
    | nil => exact absurd hn (commandName_ne_nil cmd)
    | cons c t =>
      rw [List.cons_append]
      exact skipJunk_cons c _ (commandName_no_junk cmd c (hn ▸ List.mem_cons_self c t))
  have htw := takeWhile_append_stop (fun c => decide (c ≠ '\n')) (commandName cmd)
    tail '\n' (by simp)
    (fun c hc => by
      simp only [decide_eq_true_eq]
      exact fun hceq => commandName_no_newline cmd (hceq ▸ hc))
  have hall : ((commandName cmd ++ '\n' :: tail).all (fun c => decide (c ≠ '\n'))) = false := by
    simp [List.all_append]
  simp only [parse, hskip, hall, Bool.false_eq_true, if_false, htw.1, htw.2,
    List.tail_cons, commandOfName_name]

theorem hdrLoop_line (v : Version) (l rest : List Char) (cur : List Char)
    (hacc : Hdrs) (clen : Option Nat) (hl : '\n' ∉ l) :
    hdrLoop v cur hacc clen (l ++ '\n' :: rest) =
      (if cur.reverse ++ l = [] then HdrsOut.done hacc.reverse clen rest
       else
        match parseHdrLine v (cur.reverse ++ l) with
        | none => .failed
        | some hd =>
          if hd.1 = clKey ∧ clen = none then
            match parseDecimal hd.2 with
            | none => .failed
            | some n => hdrLoop v [] (hd :: hacc) (some n) rest
          else hdrLoop v [] (hd :: hacc) clen rest) := by
  induction l generalizing cur with
  | nil =>
    rw [List.nil_append, List.append_nil]
    by_cases hcur : cur = []
    · subst hcur
      simp [hdrLoop]
    · have hrev : cur.reverse ≠ [] := by
        simpa using hcur
      simp [hdrLoop, hcur, hrev]
  | cons c t ih =>
    have hc : ¬ c = '\n' := fun h => hl (h ▸ List.mem_cons_self c t)
    have ht : '\n' ∉ t := fun h => hl (List.mem_cons_of_mem c h)
    rw [List.cons_append]
    have hstep : hdrLoop v cur hacc clen (c :: (t ++ '\n' :: rest)) =
        hdrLoop v (c :: cur) hacc clen (t ++ '\n' :: rest) := by
      simp [hdrLoop, hc]
    rw [hstep, ih (c :: cur) ht]
    simp [List.reverse_cons, List.append_assoc]

theorem firstVal_append (l₁ l₂ : Hdrs) (k : List Char) :
    firstVal (l₁ ++ l₂) k =
      match firstVal l₁ k with
      | some v => some v
      | none => firstVal l₂ k := by
  induction l₁ with
  | nil => simp [firstVal]
  | cons p t ih =>
    obtain ⟨k₀, v₀⟩ := p
    by_cases h : k₀ = k <;> simp [firstVal, h, ih]

theorem hdrLoop_clenRel (v : Version) (cs : List Char) :
    ∀ (cur : List Char) (hacc : Hdrs) (clen : Option Nat)
      (hdrs : Hdrs) (clen₂ : Option Nat) (rest : List Char),
      hdrLoop v cur hacc clen cs = .done hdrs clen₂ rest →
      ClenRel hacc.reverse clen → ClenRel hdrs clen₂ := by
  induction cs with
  | nil =>
    intro cur hacc clen hdrs clen₂ rest h _
    simp [hdrLoop] at h
  | cons c cs₂ ih =>
    intro cur hacc clen hdrs clen₂ rest h hrel
    by_cases hc : c = '\n'
    · subst hc
      rw [show hdrLoop v cur hacc clen ('\n' :: cs₂) =
          (if cur = [] then .done hacc.reverse clen cs₂
           else
            match parseHdrLine v cur.reverse with
            | none => .failed
            | some hd =>
              if hd.1 = clKey ∧ clen = none then
                match parseDecimal hd.2 with
                | none => .failed
                | some n => hdrLoop v [] (hd :: hacc) (some n) cs₂
              else hdrLoop v [] (hd :: hacc) clen cs₂) from by simp [hdrLoop]] at h
      by_cases hcur : cur = []
      · rw [if_pos hcur] at h
        cases h
        exact hrel
      · rw [if_neg hcur] at h
        split at h
        · simp at h
        · rename_i hd hp
          split at h
          · rename_i hcl
            split at h
            · simp at h
            · rename_i n hdec
              refine ih [] (hd :: hacc) (some n) hdrs clen₂ rest h ?_
              have hnone : firstVal hacc.reverse clKey = none := by
                unfold ClenRel at hrel
                cases hfv : firstVal hacc.reverse clKey with
                | none => rfl
                | some val =>
                  rw [hfv] at hrel
                  obtain ⟨m, _, hm⟩ := hrel
                  rw [hcl.2] at hm
                  cases hm
              unfold ClenRel
              rw [List.reverse_cons, firstVal_append, hnone]
              have hfv1 : firstVal [hd] clKey = some hd.2 := by
                obtain ⟨hk, hval⟩ := hd
                simp only [firstVal]
                rw [if_pos hcl.1]
              rw [hfv1]
              exact ⟨n, hdec, rfl⟩
          · rename_i hcl
            refine ih [] (hd :: hacc) clen hdrs clen₂ rest h ?_
            unfold ClenRel at hrel ⊢
            rw [List.reverse_cons, firstVal_append]
            cases hfv : firstVal hacc.reverse clKey with
            | some val =>
              rw [hfv] at hrel
              exact hrel
            | none =>
              rw [hfv] at hrel
              subst hrel
              have hne : hd.1 ≠ clKey := by
                intro hx
                exact hcl ⟨hx, rfl⟩
              have hfv1 : firstVal [hd] clKey = none := by
                obtain ⟨hk, hval⟩ := hd
                simp only [firstVal]
                rw [if_neg hne]
              rw [hfv1]
    · rw [show hdrLoop v cur hacc clen (c :: cs₂) =
          hdrLoop v (c :: cur) hacc clen cs₂ from by simp [hdrLoop, hc]] at h
      exact ih (c :: cur) hacc clen hdrs clen₂ rest h hrel

theorem unescape_no_backslash (l : List Char) (h : '\\' ∉ l) :
    unescapeVal l = some l := by
  induction l with
  | nil => rfl
  | cons c t ih =>
    have hc : ¬ c = '\\' := fun hx => h (hx ▸ List.mem_cons_self c t)
    have ht : '\\' ∉ t := fun hx => h (List.mem_cons_of_mem c hx)
    rw [unescapeVal.eq_def]
    cases t with
    | nil => simp [hc, unescapeVal]
    | cons d t₂ => simp [hc, ih ht]

theorem parseHdrLine_raw (v : Version) (k raw : List Char)
    (hk : ':' ∉ k) (hk2 : '\\' ∉ k) (hraw : '\\' ∉ raw) :
    parseHdrLine v (k ++ ':' :: raw) = some (k, raw) := by
  cases v with
  | V10 => simp [parseHdrLine, splitHdrLine_append _ _ _ hk (Or.inr hk2)]
  | V11 =>
    simp [parseHdrLine, splitHdrLine_append _ _ _ hk (Or.inr hk2),
      unescape_no_backslash raw hraw]
  | V12 =>
    simp [parseHdrLine, splitHdrLine_append _ _ _ hk (Or.inr hk2),
      unescape_no_backslash raw hraw]

/-- C6: the parser yields `ProtocolError` on a non-decimal (in particular
negative or empty) `content-length` value and on a non-NUL byte right
after a `content-length`-sized body; every frame produced has a body whose
length equals the parsed value of the first `content-length` header when
present, and with no `content-length` the body has no embedded NUL and
extends exactly to the first NUL of the wire. -/
theorem c6_parser_errors_and_invariant :
    (∀ (v : Version) (cmd : Command) (bad rest : List Char),
      '\n' ∉ bad → '\\' ∉ bad → (bad = [] ∨ ∃ c ∈ bad, c.isDigit = false) →
      parse v (commandName cmd ++ '\n' :: (clKey ++ ':' :: bad ++ '\n' :: rest)) =
        .protocolError) ∧
    (∀ (v : Version) (cmd : Command) (ds body : List Char) (c : Char) (rest : List Char),
      ds ≠ [] → (∀ d ∈ ds, d.isDigit = true) → body.length = decVal ds → c ≠ NUL →
      parse v (commandName cmd ++ '\n' ::
          (clKey ++ ':' :: ds ++ '\n' :: '\n' :: (body ++ c :: rest))) =
        .protocolError) ∧
    (∀ (v : Version) (input : List Char) (f : Frame) (n : Nat),
      parse v input = .ok f n →
      (∀ val, firstVal f.headers clKey = some val →
        ∃ m, parseDecimal val = some m ∧ f.body.length = m) ∧
      (firstVal f.headers clKey = none → NUL ∉ f.body)) ∧
    (∀ (v : Version) (cmd : Command) (body rest : List Char),
      NUL ∉ body →
      parse v (commandName cmd ++ '\n' :: ('\n' :: (body ++ NUL :: rest))) =
        .ok ⟨cmd, [], body⟩ ((commandName cmd).length + body.length + 3)) := by
  refine ⟨?_, ?_, ?_, ?_⟩
  · intro v cmd bad rest h1 h2 h3
    rw [parse_shape]
    have hline : '\n' ∉ (clKey ++ ':' :: bad) := by
      intro hx
      rcases List.mem_append.mp hx with hx | hx
      · exact absurd hx (by decide)
      · rcases List.mem_cons.mp hx with hx | hx
        · exact absurd hx (by decide)
        · exact h1 hx
    have hassoc : clKey ++ ':' :: bad ++ '\n' :: rest =
        (clKey ++ ':' :: bad) ++ '\n' :: rest := by
      simp [List.append_assoc]
    rw [hassoc, hdrLoop_line v _ rest [] [] none hline]
    simp only [List.reverse_nil, List.nil_append]
    rw [if_neg (by simp [clKey])]
    rw [parseHdrLine_raw v clKey bad (by decide) (by decide) h2]
    have hdec : parseDecimal bad = none := by
      unfold parseDecimal
      rw [if_neg]
      rcases h3 with h | ⟨c, hc, hcd⟩
      · exact fun hx => hx.1 h
      · intro hx
        have := List.all_eq_true.mp hx.2 c hc
        rw [hcd] at this
        cases this
    simp [hdec]
  · intro v cmd ds body c rest hne hds hlen hc
    have hds₂ : '\n' ∉ ds := by
      intro hx
      have := hds '\n' hx
      exact absurd this (by decide)
    have hds₃ : '\\' ∉ ds := by
      intro hx
      have := hds '\\' hx
      exact absurd this (by decide)
    rw [parse_shape]
    have hline : '\n' ∉ (clKey ++ ':' :: ds) := by
      intro hx
      rcases List.mem_append.mp hx with hx | hx
      · exact absurd hx (by decide)
      · rcases List.mem_cons.mp hx with hx | hx
        · exact absurd hx (by decide)
        · exact hds₂ hx
    have hassoc : clKey ++ ':' :: ds ++ '\n' :: '\n' :: (body ++ c :: rest) =
        (clKey ++ ':' :: ds) ++ '\n' :: ('\n' :: (body ++ c :: rest)) := by
      simp [List.append_assoc]
    rw [hassoc, hdrLoop_line v _ _ [] [] none hline]
    simp only [List.reverse_nil, List.nil_append]
    rw [if_neg (by simp [clKey])]
    rw [parseHdrLine_raw v clKey ds (by decide) (by decide) hds₃]
    have hdec : parseDecimal ds = some (decVal ds) := by
      unfold parseDecimal
      rw [if_pos ⟨hne, List.all_eq_true.mpr (fun d hd => hds d hd)⟩]
    have hloopEq : hdrLoop v [] [(clKey, ds)] (some (decVal ds))
        ('\n' :: (body ++ c :: rest)) =
        .done [(clKey, ds)] (some (decVal ds)) (body ++ c :: rest) := by
      simp [hdrLoop]
    have hbodyEq : bodyPhase (some (decVal ds)) (body ++ c :: rest) = .failed := by
      simp only [bodyPhase]
      rw [← hlen, List.drop_left]
      simp [hc]
    simp [hdec, hloopEq, hbodyEq]
  · intro v input f n h
    simp only [parse] at h
    split at h
    · exact absurd h (by simp)
    · split at h
      · exact absurd h (by simp)
      · rename_i cmd hcmd
        split at h
        · exact absurd h (by simp)
        · exact absurd h (by simp)
        · rename_i hdrs clen rest₂ hloop
          split at h
          · exact absurd h (by simp)
          · exact absurd h (by simp)
          · rename_i body rest₃ hbody
            have hrel : ClenRel hdrs clen := by
              refine hdrLoop_clenRel v _ [] [] none hdrs clen rest₂ hloop ?_
              unfold ClenRel
              simp [firstVal]
            injection h with h1 h2
            subst h1
            constructor
            · intro val hval
              have hval2 : firstVal hdrs clKey = some val := hval
              unfold ClenRel at hrel
              rw [hval2] at hrel
              obtain ⟨m, hm1, hm2⟩ := hrel
              subst hm2
              refine ⟨m, hm1, ?_⟩
              show body.length = m
              simp only [bodyPhase] at hbody
              split at hbody
              · exact absurd hbody (by simp)
              · rename_i c r hdrop
                split at hbody
                · injection hbody with hb1 hb2
                  have hmlt : m < rest₂.length := by
                    have hld := congrArg List.length hdrop
                    rw [List.length_drop] at hld
                    simp only [List.length_cons] at hld
                    omega
                  rw [← hb1, List.length_take]
                  omega
                · exact absurd hbody (by simp)
            · intro hnone
              have hnone2 : firstVal hdrs clKey = none := hnone
              unfold ClenRel at hrel
              rw [hnone2] at hrel
              subst hrel
              simp only [bodyPhase] at hbody
              split at hbody
              · exact absurd hbody (by simp)
              · injection hbody with hb1 hb2
                show NUL ∉ body
                intro hmem
                rw [← hb1] at hmem
                have := List.mem_takeWhile_imp hmem
                simp at this
  · intro v cmd body rest hnul
    rw [parse_shape]
    rw [show hdrLoop v [] [] none ('\n' :: (body ++ NUL :: rest)) =
        .done [] none (body ++ NUL :: rest) from by simp [hdrLoop]]
    have htw := takeWhile_append_stop (fun c => decide (c ≠ NUL)) body rest NUL
      (by simp) (fun c hc => by
        simp only [decide_eq_true_eq]
        exact fun hx => hnul (hx ▸ hc))
    have hex : ((body ++ NUL :: rest).all (fun c => decide (c ≠ NUL))) = false := by
      simp [List.all_append]
    have hbodyEq : bodyPhase none (body ++ NUL :: rest) = .done body rest := by
      simp only [bodyPhase]
      rw [hex]
      simp only [Bool.false_eq_true, if_false, htw.1, htw.2, List.tail_cons]
    simp only [hbodyEq]
    have hlen : (commandName cmd ++ '\n' :: ('\n' :: (body ++ NUL :: rest))).length -
        rest.length = (commandName cmd).length + body.length + 3 := by
      simp only [List.length_append, List.length_cons]
      omega
    rw [hlen]

/-- Witness for C6: a concrete non-decimal `content-length` value is a
protocol error, and the frame invariant holds at a concretely parsed
frame. -/
theorem c6_parser_errors_and_invariant_witness :
    parse .V12 (commandName .SEND ++ '\n' :: (clKey ++ ':' :: "2x".data ++ '\n' :: [])) =
      .protocolError ∧
    parse .V12 (commandName .MESSAGE ++ '\n' :: ('\n' :: ("hi".data ++ NUL :: []))) =
      .ok ⟨.MESSAGE, [], "hi".data⟩ 12 :=
  ⟨c6_parser_errors_and_invariant.1 .V12 .SEND "2x".data [] (by decide) (by decide)
      (Or.inr ⟨'x', by decide, by decide⟩),
   c6_parser_errors_and_invariant.2.2.2 .V12 .MESSAGE "hi".data [] (by decide)⟩

end Stomp
